import Mathlib

/-!
Verification of the epoch-end mAP aggregation in
`keras_retinanet/callbacks/eval.py` (`Evaluate.on_epoch_end`).

The callback receives from the external `evaluate` collaborator a mapping
from class label to `(average_precision, num_annotations)` and reduces it
to a single `mean_ap` scalar, either annotation-count-weighted over all
classes or unweighted over the classes that carry annotations.  It then
writes the scalar under key `"mAP"` into the epoch log dictionary.

Real-number arithmetic is modelled over `ℚ`; a Python `ZeroDivisionError`
is modelled as `Option.none`.  A Python dict is modelled as an ordered
association list (Python dicts preserve insertion order); dict update
semantics (`d[k] = v` overwrites in place when the key exists, otherwise
appends) are made explicit in `dictSet`.
-/

namespace KerasRetinanet

/-- Per-class result produced by `evaluate`: the pair
`(average_precision, num_annotations)` stored under each class label.
`num_annotations` is a count, modelled as `ℕ`. -/
structure ClassResult where
  average_precision : ℚ
  num_annotations : ℕ
deriving DecidableEq, Repr

/-- The `average_precisions` mapping: class label to `ClassResult`, in
iteration order of the Python dict. -/
abbrev APMap := List (ℕ × ClassResult)

/-- Line 83: `total_instances.append(num_annotations)` collected over the
loop on `average_precisions.items()`. -/
def total_instances (m : APMap) : List ℕ :=
  m.map (fun p => p.2.num_annotations)

/-- Line 84: `precisions.append(average_precision)` collected over the
loop on `average_precisions.items()`. -/
def precisions (m : APMap) : List ℚ :=
  m.map (fun p => p.2.average_precision)

/-- Line 86, numerator of the weighted branch:
`sum([a * b for a, b in zip(total_instances, precisions)])`. -/
def weighted_numerator (m : APMap) : ℚ :=
  (((total_instances m).zip (precisions m)).map
    (fun ab => (ab.1 : ℚ) * ab.2)).sum

/-- Line 88, denominator of the unweighted branch:
`sum(x > 0 for x in total_instances)` (Python sums booleans as 0/1). -/
def unweighted_denominator (m : APMap) : ℕ :=
  ((total_instances m).map (fun x => if 0 < x then 1 else 0)).sum

/-- Lines 85-88: the computation of `self.mean_ap`.  `none` models the
`ZeroDivisionError` raised by Python when the denominator is zero. -/
def compute_mean_ap (weighted_average : Bool) (m : APMap) : Option ℚ :=
  if weighted_average then
    if (total_instances m).sum = 0 then none
    else some (weighted_numerator m / ((total_instances m).sum : ℚ))
  else
    if unweighted_denominator m = 0 then none
    else some ((precisions m).sum / (unweighted_denominator m : ℚ))

/-- The epoch log dictionary: keys are strings, values are the scalars the
callback stores. -/
abbrev LogMap := List (String × ℚ)

/-- Python dict key lookup (first, hence unique, binding of the key). -/
def dictGet (d : LogMap) (k : String) : Option ℚ :=
  match d with
  | [] => none
  | p :: rest => if p.1 = k then some p.2 else dictGet rest k

/-- Python `k in d` membership test. -/
def dictHasKey (d : LogMap) (k : String) : Bool :=
  match d with
  | [] => false
  | p :: rest => p.1 = k || dictHasKey rest k

/-- Python dict assignment `d[k] = v`: overwrites in place when the key is
present, otherwise appends the new binding at the end. -/
def dictSet (d : LogMap) (k : String) (v : ℚ) : LogMap :=
  if dictHasKey d k then d.map (fun p => if p.1 = k then (k, v) else p)
  else d ++ [(k, v)]

/-- Line 62: `logs = logs or {}`.  Python's `or` returns the left operand
when it is truthy (a non-empty dict) and the right operand (a fresh empty
dict) otherwise.  The second component records whether the local binding
still aliases the caller's dictionary. -/
def logsOrEmpty (logs : Option LogMap) : LogMap × Bool :=
  match logs with
  | none => ([], false)
  | some d => if d = [] then ([], false) else (d, true)

/-- Lines 61-124 restricted to the aggregation and log update: computes
`mean_ap` from the per-class results and performs `logs['mAP'] =
self.mean_ap` on the local `logs` binding.  Returns `none` when the
aggregation raises `ZeroDivisionError` (in which case line 124 is never
reached); otherwise returns the computed `mean_ap`, the final local log
dict, and whether that dict aliases the caller's. -/
def on_epoch_end (weighted_average : Bool) (average_precisions : APMap)
    (logs : Option LogMap) : Option (ℚ × LogMap × Bool) :=
  let s := logsOrEmpty logs
  (compute_mean_ap weighted_average average_precisions).map
    (fun m => (m, dictSet s.1 "mAP" m, s.2))

/-- The caller-supplied log dictionary as the caller observes it after
`on_epoch_end` returns (or raises): it is changed exactly when the local
binding still aliased it and the aggregation succeeded. -/
def callerLogsAfter (weighted_average : Bool) (average_precisions : APMap)
    (logs : LogMap) : LogMap :=
  match on_epoch_end weighted_average average_precisions (some logs) with
  | none => logs
  | some r => if r.2.2 then r.2.1 else logs

/-- `np.maximum.accumulate` seeded with `a`: running maximum of `a :: l`. -/
def maxAccumFrom (a : ℚ) : List ℚ → List ℚ
  | [] => [a]
  | y :: ys => a :: maxAccumFrom (max a y) ys

/-- Line 74's `np.maximum.accumulate`: element `i` of the result is the
maximum of the input elements `0..i`. -/
def maximumAccumulate : List ℚ → List ℚ
  | [] => []
  | x :: xs => maxAccumFrom x xs

/-- Line 74: `np.maximum.accumulate(self.precision[::-1])[::-1]`. -/
def decreasing_max_precision (precision : List ℚ) : List ℚ :=
  (maximumAccumulate precision.reverse).reverse

/-- Refinement comparison point, following the spec's words: the
"arithmetic mean of AP over classes with annotations>0" — sum of the
average precisions of the positive-annotation classes divided by the
number of such classes. -/
def spec_unweighted_mean_ap (m : APMap) : ℚ :=
  let pos := m.filter (fun p => 0 < p.2.num_annotations)
  ((pos.map (fun p => p.2.average_precision)).sum : ℚ) / (pos.length : ℚ)

/-! ### Helper lemmas -/

/-- The unweighted denominator of line 88 is the number of classes whose
annotation count is positive. -/
lemma unweighted_denominator_eq_filter_length (m : APMap) :
    unweighted_denominator m
      = (m.filter (fun p => 0 < p.2.num_annotations)).length := by
  induction m with
  | nil => rfl
  | cons p rest ih =>
    by_cases hp : 0 < p.2.num_annotations <;>
      simp [unweighted_denominator, total_instances, List.filter_cons, hp] at ih ⊢ <;>
      omega

/-- When every zero-annotation class carries a zero average precision, the
sum of all average precisions equals the sum over the positive-annotation
classes only. -/
lemma precisions_sum_filter (m : APMap)
    (h : ∀ p ∈ m, p.2.num_annotations = 0 → p.2.average_precision = 0) :
    (precisions m).sum
      = ((m.filter (fun p => 0 < p.2.num_annotations)).map
          (fun p => p.2.average_precision)).sum := by
  induction m with
  | nil => rfl
  | cons p rest ih =>
    have hrest : ∀ q ∈ rest, q.2.num_annotations = 0 → q.2.average_precision = 0 :=
      fun q hq => h q (List.mem_cons_of_mem p hq)
    have ih' := ih hrest
    by_cases hp : 0 < p.2.num_annotations
    · simp [precisions, List.filter_cons, hp] at ih' ⊢
      rw [ih']
    · have hap : p.2.average_precision = 0 :=
        h p (List.mem_cons_self p rest) (Nat.eq_zero_of_not_pos hp)
      simp [precisions, List.filter_cons, hp, hap] at ih' ⊢
      exact ih'

/-- The zip-comprehension numerator of line 86 is the sum over classes of
`average_precision * num_annotations`. -/
lemma weighted_numerator_eq (m : APMap) :
    weighted_numerator m
      = (m.map (fun p => p.2.average_precision * (p.2.num_annotations : ℚ))).sum := by
  induction m with
  | nil => rfl
  | cons p rest ih =>
    simp [weighted_numerator, total_instances, precisions] at ih ⊢
    rw [ih, mul_comm]

/-- A key absent from a dict fails the membership test. -/
lemma dictHasKey_eq_false (d : LogMap) (k : String) (h : dictGet d k = none) :
    dictHasKey d k = false := by
  induction d with
  | nil => rfl
  | cons p rest ih =>
    rw [dictGet] at h
    rw [dictHasKey]
    by_cases hk : p.1 = k
    · simp [hk] at h
    · simp [hk] at h ⊢
      exact ih h

/-- Appending a fresh binding makes its key retrievable. -/
lemma dictGet_append_single (d : LogMap) (k : String) (v : ℚ)
    (h : dictGet d k = none) : dictGet (d ++ [(k, v)]) k = some v := by
  induction d with
  | nil => simp [dictGet]
  | cons p rest ih =>
    rw [dictGet] at h
    rw [List.cons_append, dictGet]
    by_cases hk : p.1 = k
    · simp [hk] at h
    · simp [hk] at h ⊢
      exact ih h

/-- The running maximum starts with its seed. -/
lemma maxAccumFrom_head (a : ℚ) (l : List ℚ) :
    (maxAccumFrom a l).head? = some a := by
  cases l <;> rfl

/-- The running maximum is monotone non-decreasing. -/
lemma chain'_maxAccumFrom (l : List ℚ) :
    ∀ a, List.Chain' (· ≤ ·) (maxAccumFrom a l) := by
  induction l with
  | nil => intro a; exact List.chain'_singleton a
  | cons y ys ih =>
    intro a
    rw [maxAccumFrom, List.chain'_cons']
    refine ⟨?_, ih (max a y)⟩
    intro b hb
    rw [maxAccumFrom_head, Option.mem_some_iff] at hb
    rw [← hb]
    exact le_max_left a y

/-- The running maximum dominates the input pointwise, given that the
seed dominates the head. -/
lemma forall₂_maxAccumFrom (l : List ℚ) :
    ∀ y a : ℚ, y ≤ a → List.Forall₂ (· ≤ ·) (y :: l) (maxAccumFrom a l) := by
  induction l with
  | nil => intro y a h; exact List.Forall₂.cons h List.Forall₂.nil
  | cons z zs ih =>
    intro y a h
    rw [maxAccumFrom]
    exact List.Forall₂.cons h (ih z (max a z) (le_max_right a z))

/-- `np.maximum.accumulate` output is monotone non-decreasing. -/
lemma chain'_maximumAccumulate (l : List ℚ) :
    List.Chain' (· ≤ ·) (maximumAccumulate l) := by
  cases l with
  | nil => exact List.chain'_nil
  | cons x xs => exact chain'_maxAccumFrom xs x

/-- `np.maximum.accumulate` output dominates the input pointwise. -/
lemma forall₂_maximumAccumulate (l : List ℚ) :
    List.Forall₂ (· ≤ ·) l (maximumAccumulate l) := by
  cases l with
  | nil => exact List.Forall₂.nil
  | cons x xs => exact forall₂_maxAccumFrom xs x x le_rfl

/-! ### Claim theorems -/

/-- C1 counterexample: on `{A: (AP=0.8, n=10), B: (AP=0.4, n=0)}` the code
computes unweighted mAP `(0.8 + 0.4) / 1 = 1.2`, not the arithmetic mean
`0.8` of the average precisions of the positive-annotation classes: the
numerator of line 88 sums the average precisions of all classes, zero
annotations or not. -/
theorem C1_counterexample :
    compute_mean_ap false
        [(0, ClassResult.mk (4/5) 10), (1, ClassResult.mk (2/5) 0)]
      ≠ some (spec_unweighted_mean_ap
        [(0, ClassResult.mk (4/5) 10), (1, ClassResult.mk (2/5) 0)]) := by
  simp [compute_mean_ap, precisions, unweighted_denominator, total_instances,
    spec_unweighted_mean_ap]

/-- C1 (amended): for every per-class result mapping with at least one
positive-annotation class, in which every zero-annotation class has
average precision 0 (as the `evaluate` collaborator guarantees), the
unweighted mAP of `on_epoch_end` equals the arithmetic mean of
`average_precision` over exactly the classes with `num_annotations > 0`. -/
theorem C1_unweighted_mean_over_positive_classes (m : APMap)
    (hpos : ∃ p ∈ m, 0 < p.2.num_annotations)
    (hzero : ∀ p ∈ m, p.2.num_annotations = 0 → p.2.average_precision = 0) :
    compute_mean_ap false m = some (spec_unweighted_mean_ap m) := by
  obtain ⟨p, hp, hppos⟩ := hpos
  have hmem : p ∈ m.filter (fun q => 0 < q.2.num_annotations) :=
    List.mem_filter.mpr ⟨hp, by simpa using hppos⟩
  have hne : (m.filter (fun q => 0 < q.2.num_annotations)).length ≠ 0 := by
    intro h0
    rw [List.length_eq_zero] at h0
    rw [h0] at hmem
    exact absurd hmem (List.not_mem_nil p)
  rw [compute_mean_ap]
  simp only [Bool.false_eq_true, if_false]
  rw [unweighted_denominator_eq_filter_length, if_neg hne,
    precisions_sum_filter m hzero, spec_unweighted_mean_ap]

/-- C1 witness: a singleton mapping with a positive-annotation class. -/
theorem C1_witness :
    compute_mean_ap false [(0, ClassResult.mk (4/5) 10)]
      = some (spec_unweighted_mean_ap [(0, ClassResult.mk (4/5) 10)]) :=
  C1_unweighted_mean_over_positive_classes _
    ⟨(0, ClassResult.mk (4/5) 10), List.mem_singleton_self _, by decide⟩
    (by
      intro p hp h0
      rw [List.mem_singleton] at hp
      subst hp
      exact absurd h0 (by decide))

/-- C2: for every per-class result mapping with positive total annotation
count, the weighted mAP of `on_epoch_end` equals the sum over all classes
of `average_precision * num_annotations` divided by the total annotation
count. -/
theorem C2_weighted_mean_ap (m : APMap)
    (h : 0 < (total_instances m).sum) :
    compute_mean_ap true m
      = some ((m.map (fun p => p.2.average_precision * (p.2.num_annotations : ℚ))).sum
          / ((total_instances m).sum : ℚ)) := by
  rw [compute_mean_ap, if_pos rfl, if_neg (Nat.pos_iff_ne_zero.mp h),
    weighted_numerator_eq]

/-- C2 witness: a singleton mapping with two annotations. -/
theorem C2_witness :
    compute_mean_ap true [(0, ClassResult.mk (1/2) 2)] = some (1/2) := by
  have h := C2_weighted_mean_ap [(0, ClassResult.mk (1/2) 2)]
    (by simp [total_instances])
  rw [h]
  norm_num [total_instances]

/-- C3 counterexample: on `{A: (AP=0.8, n=10), B: (AP=0.4, n=0)}` the code
yields unweighted mAP `1.2`, not the claimed `0.8`: class B's average
precision is not excluded from the numerator of line 88. -/
theorem C3_counterexample :
    compute_mean_ap false
        [(2, ClassResult.mk (4/5) 10), (3, ClassResult.mk (2/5) 0)]
      ≠ some (4/5) := by
  simp [compute_mean_ap, precisions, unweighted_denominator, total_instances]

/-- C3 (amended): on `{A: (AP=0.8, n=10), B: (AP=0.4, n=0)}` the aggregator
yields unweighted mAP `1.2` (class B's average precision stays in the
numerator; only the denominator excludes B) and weighted mAP `0.8`. -/
theorem C3_aggregator_values :
    compute_mean_ap false
        [(2, ClassResult.mk (4/5) 10), (3, ClassResult.mk (2/5) 0)]
      = some (6/5)
    ∧ compute_mean_ap true
        [(2, ClassResult.mk (4/5) 10), (3, ClassResult.mk (2/5) 0)]
      = some (4/5) := by
  constructor
  · simp [compute_mean_ap, precisions, unweighted_denominator, total_instances]
    norm_num
  · simp [compute_mean_ap, weighted_numerator, precisions, total_instances]

/-- C4: on `{A: (AP=0.5, n=5), B: (AP=0.3, n=5)}` both the unweighted and
the weighted mAP equal `0.4`. -/
theorem C4_aggregator_values :
    compute_mean_ap false
        [(0, ClassResult.mk (1/2) 5), (1, ClassResult.mk (3/10) 5)]
      = some (2/5)
    ∧ compute_mean_ap true
        [(0, ClassResult.mk (1/2) 5), (1, ClassResult.mk (3/10) 5)]
      = some (2/5) := by
  constructor
  · simp [compute_mean_ap, precisions, unweighted_denominator, total_instances]
    norm_num
  · simp [compute_mean_ap, weighted_numerator, precisions, total_instances]
    norm_num

/-- C5 counterexample: an empty log mapping is passed and the aggregation
succeeds, yet the caller's mapping gains no `"mAP"` entry: line 62 tests
`logs or` the empty dict literal, which replaces the falsy empty dict with
a fresh one, so line 124 writes into the fresh dict instead. -/
theorem C5_counterexample :
    compute_mean_ap false [(0, ClassResult.mk (1/2) 1)] = some (1/2)
    ∧ dictGet (callerLogsAfter false [(0, ClassResult.mk (1/2) 1)] []) "mAP"
      = none := by
  constructor
  · simp [compute_mean_ap, precisions, unweighted_denominator, total_instances]
  · simp [callerLogsAfter, on_epoch_end, logsOrEmpty, compute_mean_ap,
      precisions, unweighted_denominator, total_instances, dictGet]

/-- C5 (amended): for every non-empty epoch log mapping that does not
already contain key `"mAP"`, if the mAP aggregation succeeds then after
`on_epoch_end` the mapping contains exactly one new entry, under key
`"mAP"`, whose value is the computed `mean_ap`, and every pre-existing
key still maps to its original value. -/
theorem C5_logs_gain_mAP_entry (w : Bool) (m : APMap) (logs : LogMap) (mp : ℚ)
    (hne : logs ≠ [])
    (hfresh : dictGet logs "mAP" = none)
    (hok : compute_mean_ap w m = some mp) :
    callerLogsAfter w m logs = logs ++ [("mAP", mp)]
    ∧ dictGet (callerLogsAfter w m logs) "mAP" = some mp := by
  have hkey := dictHasKey_eq_false logs "mAP" hfresh
  have h1 : callerLogsAfter w m logs = logs ++ [("mAP", mp)] := by
    simp [callerLogsAfter, on_epoch_end, logsOrEmpty, hne, hok, dictSet, hkey]
  exact ⟨h1, by rw [h1]; exact dictGet_append_single logs "mAP" mp hfresh⟩

/-- C5 witness: a one-entry log mapping without key `"mAP"`. -/
theorem C5_witness :
    callerLogsAfter false [(0, ClassResult.mk (1/2) 1)] [("loss", 1)]
      = [("loss", 1), ("mAP", 1/2)] := by
  have h := C5_logs_gain_mAP_entry false [(0, ClassResult.mk (1/2) 1)]
    [("loss", 1)] (1/2) (by simp) (by simp [dictGet])
    (by simp [compute_mean_ap, precisions, unweighted_denominator, total_instances])
  rw [h.1]
  rfl

/-- C6: for every per-class result mapping in which every class has zero
annotations (the empty mapping included), the unweighted path divides by
zero — modelled as `none` — and returns no default value. -/
theorem C6_all_zero_annotations_divide_by_zero (m : APMap)
    (h : ∀ p ∈ m, p.2.num_annotations = 0) :
    compute_mean_ap false m = none := by
  have hd : unweighted_denominator m = 0 := by
    rw [unweighted_denominator_eq_filter_length, List.length_eq_zero,
      List.filter_eq_nil_iff]
    intro p hp
    simp [h p hp]
  simp [compute_mean_ap, hd]

/-- C6 witness: a single class with zero annotations. -/
theorem C6_witness :
    compute_mean_ap false [(0, ClassResult.mk (2/5) 0)] = none :=
  C6_all_zero_annotations_divide_by_zero _
    (by
      intro p hp
      rw [List.mem_singleton] at hp
      subst hp
      rfl)

/-- C7: the denominator of the unweighted aggregation counts exactly the
classes with positive annotation count, for every per-class result
mapping. -/
theorem C7_unweighted_denominator_counts_positive (m : APMap) :
    unweighted_denominator m
      = (m.filter (fun p => 0 < p.2.num_annotations)).length :=
  unweighted_denominator_eq_filter_length m

/-- C8: for every per-class result mapping with zero total annotation
count (the empty mapping included), the weighted path also divides by
zero — modelled as `none`. -/
theorem C8_weighted_zero_total_divide_by_zero (m : APMap)
    (h : (total_instances m).sum = 0) :
    compute_mean_ap true m = none := by
  simp [compute_mean_ap, h]

/-- C8 witness: the empty mapping. -/
theorem C8_witness : compute_mean_ap true [] = none :=
  C8_weighted_zero_total_divide_by_zero [] rfl

/-- C9: for every precision sequence, `decreasing_max_precision` —
`np.maximum.accumulate` applied to the reversed sequence, reversed back —
is non-increasing from left to right and dominates the original sequence
pointwise. -/
theorem C9_decreasing_max_precision_shape (p : List ℚ) :
    List.Chain' (fun a b => b ≤ a) (decreasing_max_precision p)
    ∧ List.Forall₂ (· ≤ ·) p (decreasing_max_precision p) := by
  constructor
  · rw [decreasing_max_precision, List.chain'_reverse]
    exact chain'_maximumAccumulate p.reverse
  · have h := List.rel_reverse (forall₂_maximumAccumulate p.reverse)
    rwa [List.reverse_reverse] at h

/-- C10: when `on_epoch_end` receives `None` or an empty log mapping, a
fresh dictionary is substituted (the aliasing flag is `false`), so the
caller's empty mapping survives the call unchanged and never receives
key `"mAP"`, whatever the per-class results and the averaging mode. -/
theorem C10_empty_logs_not_mutated (w : Bool) (m : APMap) :
    logsOrEmpty none = ([], false)
    ∧ logsOrEmpty (some []) = ([], false)
    ∧ callerLogsAfter w m [] = []
    ∧ dictGet (callerLogsAfter w m []) "mAP" = none := by
  have h3 : callerLogsAfter w m [] = [] := by
    unfold callerLogsAfter on_epoch_end logsOrEmpty
    cases compute_mean_ap w m <;> simp
  exact ⟨rfl, rfl, h3, by rw [h3]; rfl⟩

end KerasRetinanet
